import Mathlib

/-
Verification of the merge engine and batch output resolver of
`mybind.py` (Auto-Apply-Keybinds-to-Myau-Configs).

The program loads JSON configuration documents (Python dicts produced by
`json.load`), merges the "key" field of the source into each target with
`apply_binds`, and writes each merged target next to the target file using
the naming pattern `OUTPUT_NAME_PATTERN`.

JSON values are embedded as the inductive type `JVal`; a configuration
document (a Python dict at the root) is an association list with unique
string keys, in insertion order, as `json.load` produces.  Python dict
operations are translated as first-occurrence association-list operations:
on a genuine dict the keys are unique, so this is exact; theorems that
depend on key uniqueness carry an explicit `Nodup` hypothesis.
-/

namespace Mybind

/-- A JSON value as produced by json.load: null, booleans, numbers
(the merge engine never inspects them, an integer model suffices),
strings, arrays, and objects (Python dicts: ordered fields, unique keys). -/
inductive JVal : Type where
  | null : JVal
  | bool : Bool → JVal
  | num : Int → JVal
  | str : String → JVal
  | arr : List JVal → JVal
  | obj : List (String × JVal) → JVal

/-- A configuration document: the root JSON object, a mapping from module
name to module entry. -/
abbrev Doc := List (String × JVal)

/-- Python dict lookup d[k] / d.get(k): the value of the first (on a real
dict, the only) binding of k. -/
def getVal? : Doc → String → Option JVal
  | [], _ => none
  | (k, v) :: tl, m => if k = m then some v else getVal? tl m

/-- Python membership test: k in d. -/
def hasKey (d : Doc) (m : String) : Bool :=
  (getVal? d m).isSome

/-- Python d.pop(k, None), value-level effect on the bindings: remove the
binding of k (the first one; on a real dict, the only one). -/
def popField : Doc → String → Doc
  | [], _ => []
  | (k, v) :: tl, m => if k = m then tl else (k, v) :: popField tl m

/-- Python dict assignment d[k] = v: replace the value of an existing
binding in place (keeping its position), else append a new binding. -/
def setField : Doc → String → JVal → Doc
  | [], k, v => [(k, v)]
  | (k0, v0) :: tl, k, v =>
      if k0 = k then (k, v) :: tl else (k0, v0) :: setField tl k v

/-- Python isinstance(v, dict). -/
def isObj : JVal → Bool
  | JVal.obj _ => true
  | _ => false

/-- The fields of a module entry when it is a mapping, else none
(a non-mapping entry has no fields). -/
def entryFields : JVal → Doc
  | JVal.obj fs => fs
  | _ => []

/-- One iteration of pass 1 of apply_binds on a single module entry:
if isinstance(params, dict): params.pop("key", None). -/
def stripKeyEntry : JVal → JVal
  | JVal.obj fs => JVal.obj (popField fs "key")
  | v => v

/-- Pass 1 of apply_binds (mybind.py lines 158-161): for every module of
the target, if its entry is a dict, delete its "key" field.  The loop
iterates over a snapshot of dst_cfg.items() and mutates only the nested
dicts, so the document keeps its module names and order. -/
def stripPass (dst : Doc) : Doc :=
  dst.map (fun mv => (mv.1, stripKeyEntry mv.2))

/-- One iteration of pass 2 of apply_binds (mybind.py lines 164-168) for
the source binding (module, srcParams):

if module in dst_cfg and isinstance(src_params, dict) and "key" in src_params:
    if not isinstance(dst_cfg[module], dict): dst_cfg[module] = \x7b\x7d
    dst_cfg[module]["key"] = src_params["key"]

The two consecutive assignments to dst_cfg[module] in the body are
collapsed into one setField with the final entry value: when the current
entry is a dict its "key" field is set, otherwise the entry is replaced by
a fresh dict holding only the "key" field. -/
def copyStep (d : Doc) (module : String) (srcParams : JVal) : Doc :=
  match srcParams with
  | JVal.obj srcFields =>
      match getVal? srcFields "key" with
      | some keyVal =>
          match getVal? d module with
          | some cur => setField d module (JVal.obj (setField (entryFields cur) "key" keyVal))
          | none => d
      | none => d
  | _ => d

/-- Pass 2 of apply_binds: fold copyStep over the source bindings in
insertion order. -/
def copyPass (src : Doc) (d : Doc) : Doc :=
  src.foldl (fun acc mv => copyStep acc mv.1 mv.2) d

/-- apply_binds (mybind.py lines 153-170): strip all "key" fields from the
target, then copy the "key" field from the source for modules present in
both, and return the (mutated) target. -/
def apply_binds (src_cfg dst_cfg : Doc) : Doc :=
  copyPass src_cfg (stripPass dst_cfg)

/-- The in-memory state apply_binds acts on: the pair (src_cfg, dst_cfg) of
the two documents, given as distinct values (no sharing between them, as
when both come from separate json.load calls).  The Python function
mutates nested dicts of dst_cfg in pass 1 and entries of dst_cfg in pass
2; no statement writes to src_cfg or to anything reachable from it, so the
effect on the pair is: target replaced by the merged document, source
passed through. -/
def applyBindsPair (st : Doc × Doc) : Doc × Doc :=
  (st.1, apply_binds st.1 st.2)

/-- A source module entry that pass 2 would copy from: a dict that
contains a "key" field (isinstance(src_params, dict) and "key" in src_params). -/
def isCopyable : JVal → Bool
  | JVal.obj fs => (getVal? fs "key").isSome
  | _ => false

/-- Whether the entry of module m in document d would be copied from by
pass 2: m is present and its entry is a dict containing a "key" field. -/
def copyableAt (d : Doc) (m : String) : Bool :=
  match getVal? d m with
  | some p => isCopyable p
  | none => false

/-- Whether the entry of module m in document d, when it is a dict, has
pairwise distinct field names (always true for dicts from json.load). -/
def entryNodupAt (d : Doc) (m : String) : Bool :=
  match getVal? d m with
  | some (JVal.obj fs) => decide (fs.map Prod.fst).Nodup
  | _ => true

/-- Observation: the entry of module m is present and is a mapping. -/
def isObjAt (d : Doc) (m : String) : Bool :=
  match getVal? d m with
  | some v => isObj v
  | none => false

/-- Observation: the value of the "key" field of the entry of module m,
when that entry is a mapping containing one. -/
def keyValAt (d : Doc) (m : String) : Option JVal :=
  match getVal? d m with
  | some (JVal.obj fs) => getVal? fs "key"
  | _ => none

/-- Observation: the entry of module m, whenever it is a mapping, has no
"key" field (vacuously true for absent or non-mapping entries). -/
def noKeyAt (d : Doc) (m : String) : Bool :=
  match getVal? d m with
  | some (JVal.obj fs) => (getVal? fs "key").isNone
  | _ => true

/-- Observation: the value of field f of the entry of module m, when that
entry is a mapping (a non-mapping entry has no fields). -/
def fieldValAt (d : Doc) (m f : String) : Option JVal :=
  match getVal? d m with
  | some (JVal.obj fs) => getVal? fs f
  | _ => none

/-
Path model.  main saves each merged target next to the target file
(ASK_WHERE_TO_SAVE is False in the shipped code), with the filename
OUTPUT_NAME_PATTERN.format(base=stem of the target).  The os.path
functions used by main (basename, dirname, splitext, join) are external
library code; they are modelled below on the POSIX separator, operating
on the underlying character lists.
-/

/-- The shipped value of the ASK_WHERE_TO_SAVE constant (mybind.py line 37):
outputs are always saved next to each target. -/
def ASK_WHERE_TO_SAVE : Bool := false

/-- The naming pattern constant (mybind.py line 42). -/
def OUTPUT_NAME_PATTERN : String := "{base}_mybind.json"

/-- str.format with the single placeholder base: every occurrence of
the six characters of the placeholder is replaced by the argument. -/
def substBase (base : List Char) : List Char → List Char
  | '{' :: 'b' :: 'a' :: 's' :: 'e' :: '}' :: rest => base ++ substBase base rest
  | c :: rest => c :: substBase base rest
  | [] => []

/-- pattern.format(base=b). -/
def formatBase (pattern b : String) : String :=
  String.mk (substBase b.data pattern.data)

/-- os.path.basename: the part after the last separator. -/
def basename (p : String) : String :=
  String.mk ((p.data.reverse.takeWhile (fun c => c != '/')).reverse)

/-- os.path.dirname: the part before the last separator, with trailing
separators stripped unless the result consists only of separators. -/
def dirname (p : String) : String :=
  let head := (p.data.reverse.dropWhile (fun c => c != '/')).reverse
  if head.all (fun c => c == '/') then String.mk head
  else String.mk ((head.reverse.dropWhile (fun c => c == '/')).reverse)

/-- The stem part of os.path.splitext on a bare filename (no separator in
the input, as main applies it to a basename): the text before the last
dot, except that a filename whose characters before that dot are all dots
(such as a bare dotfile) is returned whole. -/
def splitextStem (b : String) : String :=
  let rev := b.data.reverse
  let extRev := rev.takeWhile (fun c => c != '.')
  if extRev.length = rev.length then b
  else
    let pre := (rev.drop (extRev.length + 1)).reverse
    if pre.all (fun c => c == '.') then b else String.mk pre

/-- os.path.join for two components (POSIX): an absolute second component
wins; otherwise the components are joined with a separator unless the
first is empty or already ends in one. -/
def joinPath (a b : String) : String :=
  match b.data with
  | '/' :: _ => b
  | _ =>
      match a.data with
      | [] => b
      | _ =>
          if a.data.getLast? = some '/' then String.mk (a.data ++ b.data)
          else String.mk (a.data ++ '/' :: b.data)

/-- The output path main computes for a target path in sibling mode
(mybind.py lines 248-252): the directory of the target joined with the
naming pattern applied to the stem of the target filename. -/
def outPath (dstPath : String) : String :=
  joinPath (dirname dstPath) (formatBase OUTPUT_NAME_PATTERN (splitextStem (basename dstPath)))

/-
Batch run model.  The filesystem is abstracted as a parse oracle
read : String → Option JVal; read p is the JSON value the file at p parses
to, or none when the file cannot be read or is not valid JSON.  Writes are
recorded in an ordered log of (path, document) pairs.
-/

/-- The result of load_json (mybind.py lines 133-140): the parsed value on
success; on failure the function shows a message naming the path and
terminates the process with sys.exit(1). -/
inductive LoadResult : Type where
  | ok : JVal → LoadResult
  | err : String → LoadResult

/-- load_json: json.load the file at the path; any exception (unreadable
file, malformed JSON) becomes the fatal error case.  No check of the
shape of the parsed root value is performed. -/
def load_json (read : String → Option JVal) (path : String) : LoadResult :=
  match read path with
  | some v => LoadResult.ok v
  | none => LoadResult.err path

/-- Calling apply_binds(src_cfg, dst_cfg) on freshly loaded JSON values:
Python raises an uncaught AttributeError when either root is not a dict
(a non-dict target fails at dst_cfg.items() in pass 1, a non-dict source
fails at src_cfg.items() in pass 2); in both cases no merged document is
produced.  With two dict roots the merge runs. -/
def applyBindsDyn (src dst : JVal) : Option Doc :=
  match dst, src with
  | JVal.obj d, JVal.obj s => some (apply_binds s d)
  | _, _ => none

/-- Outcome of the processing part of main: full success with the list of
generated paths, or a fatal load error naming the offending path
(messagebox plus sys.exit(1)), or an uncaught AttributeError from a
non-dict root.  Each outcome carries the log of files written before the
run ended. -/
inductive RunOutcome : Type where
  | success : List String → List (String × Doc) → RunOutcome
  | loadError : String → List (String × Doc) → RunOutcome
  | attrError : List (String × Doc) → RunOutcome

/-- The target loop of main (mybind.py lines 243-272) in sibling mode:
for each target path in order, load it, merge with the in-memory source,
compute the sibling output path, save, and append the path to
generated_paths.  gen and written accumulate the generated paths and the
write log. -/
def processTargets (read : String → Option JVal) (srcVal : JVal) :
    List String → List String → List (String × Doc) → RunOutcome
  | [], gen, written => RunOutcome.success gen written
  | dstPath :: rest, gen, written =>
      match load_json read dstPath with
      | LoadResult.err p => RunOutcome.loadError p written
      | LoadResult.ok dv =>
          match applyBindsDyn srcVal dv with
          | none => RunOutcome.attrError written
          | some updated =>
              processTargets read srcVal rest
                (gen ++ [outPath dstPath]) (written ++ [(outPath dstPath, updated)])

/-- The processing phase of main (mybind.py lines 239-272): load the
source once, then run the target loop over the chosen target paths. -/
def runMain (read : String → Option JVal) (srcPath : String)
    (dstPaths : List String) : RunOutcome :=
  match load_json read srcPath with
  | LoadResult.err p => RunOutcome.loadError p []
  | LoadResult.ok sv => processTargets read sv dstPaths [] []

/-
Concrete parse oracles and documents used to evaluate the batch theorems
on explicit inputs.
-/

/-- A small filesystem for the full-success batch run: a source and two
sibling targets in the directory cfg. -/
def readBatch : String → Option JVal := fun p =>
  if p = "cfg/src.json" then some (JVal.obj [("move", JVal.obj [("key", JVal.str "W")])])
  else if p = "cfg/a.json" then some (JVal.obj [])
  else if p = "cfg/b.json" then some (JVal.obj [("move", JVal.obj [("key", JVal.str "UP")])])
  else none

/-- The parsed documents of the two targets of readBatch. -/
def docsBatch : String → Doc := fun p =>
  if p = "cfg/b.json" then [("move", JVal.obj [("key", JVal.str "UP")])]
  else []

/-- A filesystem where the second target is unreadable or malformed. -/
def readHalt : String → Option JVal := fun p =>
  if p = "d/src.json" then some (JVal.obj [("jump", JVal.obj [("key", JVal.str "SPACE")])])
  else if p = "d/t1.json" then some (JVal.obj [("jump", JVal.obj [])])
  else none

/-- The parsed documents of the loadable targets of readHalt. -/
def docsHalt : String → Doc := fun p =>
  if p = "d/t1.json" then [("jump", JVal.obj [])]
  else []

/-- A filesystem whose source parses to an object and whose every other
file parses to a JSON string: a valid JSON document with a non-object
root. -/
def readStrRoot : String → Option JVal := fun p =>
  if p = "d/src.json" then some (JVal.obj []) else some (JVal.str "nope")

/-
Association-list lemmas for the dict operations.
-/

theorem getVal?_eq_none_of_not_mem {d : Doc} {m : String}
    (h : m ∉ d.map Prod.fst) : getVal? d m = none := by
  induction d with
  | nil => rfl
  | cons hd tl ih =>
      obtain ⟨k, v⟩ := hd
      simp only [List.map_cons, List.mem_cons] at h
      push_neg at h
      simp [getVal?, Ne.symm h.1, ih h.2]

theorem getVal?_setField_self (d : Doc) (k : String) (v : JVal) :
    getVal? (setField d k v) k = some v := by
  induction d with
  | nil => simp [setField, getVal?]
  | cons hd tl ih =>
      obtain ⟨k0, v0⟩ := hd
      by_cases h : k0 = k
      · subst h; simp [setField, getVal?]
      · simp [setField, getVal?, h, ih]

theorem getVal?_setField_ne (d : Doc) {k m : String} (v : JVal) (h : k ≠ m) :
    getVal? (setField d k v) m = getVal? d m := by
  induction d with
  | nil => simp [setField, getVal?, h]
  | cons hd tl ih =>
      obtain ⟨k0, v0⟩ := hd
      by_cases h0 : k0 = k
      · subst h0; simp [setField, getVal?, h]
      · simp [setField, getVal?, h0, ih]

theorem keys_setField_of_mem {d : Doc} {k : String} {w : JVal} (v : JVal)
    (h : getVal? d k = some w) :
    (setField d k v).map Prod.fst = d.map Prod.fst := by
  induction d with
  | nil => simp [getVal?] at h
  | cons hd tl ih =>
      obtain ⟨k0, v0⟩ := hd
      by_cases h0 : k0 = k
      · subst h0; simp [setField]
      · simp only [getVal?, if_neg h0] at h
        simp [setField, h0, ih h]

theorem getVal?_popField_ne (d : Doc) {k m : String} (h : k ≠ m) :
    getVal? (popField d k) m = getVal? d m := by
  induction d with
  | nil => rfl
  | cons hd tl ih =>
      obtain ⟨k0, v0⟩ := hd
      by_cases h0 : k0 = k
      · subst h0; simp [popField, getVal?, h]
      · simp [popField, getVal?, h0, ih]

theorem getVal?_popField_self {d : Doc} (k : String)
    (h : (d.map Prod.fst).Nodup) : getVal? (popField d k) k = none := by
  induction d with
  | nil => rfl
  | cons hd tl ih =>
      obtain ⟨k0, v0⟩ := hd
      simp only [List.map_cons, List.nodup_cons] at h
      by_cases h0 : k0 = k
      · subst h0
        simp only [popField, if_pos rfl]
        exact getVal?_eq_none_of_not_mem h.1
      · simp [popField, getVal?, h0, ih h.2]

/-
Lemmas about the strip pass.
-/

theorem keys_stripPass (d : Doc) :
    (stripPass d).map Prod.fst = d.map Prod.fst := by
  simp [stripPass, List.map_map, Function.comp_def]

theorem getVal?_stripPass (d : Doc) (m : String) :
    getVal? (stripPass d) m = (getVal? d m).map stripKeyEntry := by
  induction d with
  | nil => rfl
  | cons hd tl ih =>
      obtain ⟨k, v⟩ := hd
      by_cases h : k = m
      · subst h; simp [stripPass, getVal?]
      · simpa [stripPass, getVal?, h] using ih

theorem hasKey_stripPass (d : Doc) (m : String) :
    hasKey (stripPass d) m = hasKey d m := by
  simp [hasKey, getVal?_stripPass]

/-
Lemmas about one copy step.
-/

theorem keys_copyStep (d : Doc) (mo : String) (p : JVal) :
    (copyStep d mo p).map Prod.fst = d.map Prod.fst := by
  cases p with
  | obj sfs =>
      simp only [copyStep]
      cases hk : getVal? sfs "key" with
      | none => rfl
      | some kv =>
          cases hd : getVal? d mo with
          | none => rfl
          | some cur => exact keys_setField_of_mem _ hd
  | null => rfl
  | bool b => rfl
  | num n => rfl
  | str s => rfl
  | arr xs => rfl

theorem getVal?_copyStep_ne (d : Doc) {mo m : String} (p : JVal) (h : mo ≠ m) :
    getVal? (copyStep d mo p) m = getVal? d m := by
  cases p with
  | obj sfs =>
      simp only [copyStep]
      cases hk : getVal? sfs "key" with
      | none => rfl
      | some kv =>
          cases hd : getVal? d mo with
          | none => rfl
          | some cur => exact getVal?_setField_ne _ _ h
  | null => rfl
  | bool b => rfl
  | num n => rfl
  | str s => rfl
  | arr xs => rfl

theorem copyStep_eq_of_not_copyable (d : Doc) (mo : String) {p : JVal}
    (h : isCopyable p = false) : copyStep d mo p = d := by
  cases p with
  | obj sfs =>
      cases hk : getVal? sfs "key" with
      | none => simp [copyStep, hk]
      | some kv => simp [isCopyable, hk] at h
  | null => rfl
  | bool b => rfl
  | num n => rfl
  | str s => rfl
  | arr xs => rfl

theorem copyStep_eq_of_not_mem {d : Doc} {mo : String} (p : JVal)
    (h : getVal? d mo = none) : copyStep d mo p = d := by
  cases p with
  | obj sfs =>
      simp only [copyStep]
      cases hk : getVal? sfs "key" with
      | none => rfl
      | some kv => simp [h]
  | null => rfl
  | bool b => rfl
  | num n => rfl
  | str s => rfl
  | arr xs => rfl

theorem copyStep_self {d : Doc} {m : String} {sfs : Doc} {kv : JVal} {v : JVal}
    (hk : getVal? sfs "key" = some kv) (hd : getVal? d m = some v) :
    copyStep d m (JVal.obj sfs) =
      setField d m (JVal.obj (setField (entryFields v) "key" kv)) := by
  simp [copyStep, hk, hd]

/-
Lemmas about the copy pass.
-/

theorem copyPass_nil (d : Doc) : copyPass [] d = d := rfl

theorem copyPass_cons (mv : String × JVal) (tl : Doc) (d : Doc) :
    copyPass (mv :: tl) d = copyPass tl (copyStep d mv.1 mv.2) := rfl

theorem keys_copyPass (src : Doc) : ∀ d : Doc,
    (copyPass src d).map Prod.fst = d.map Prod.fst := by
  induction src with
  | nil => intro d; rfl
  | cons mv tl ih =>
      intro d
      rw [copyPass_cons, ih, keys_copyStep]

theorem getVal?_copyPass_not_mem {src : Doc} {m : String}
    (h : m ∉ src.map Prod.fst) : ∀ d : Doc,
    getVal? (copyPass src d) m = getVal? d m := by
  induction src with
  | nil => intro d; rfl
  | cons mv tl ih =>
      intro d
      simp only [List.map_cons, List.mem_cons] at h
      push_neg at h
      rw [copyPass_cons, ih h.2, getVal?_copyStep_ne _ _ (Ne.symm h.1)]

theorem getVal?_copyPass_set {src : Doc} {m : String} {sfs : Doc} {kv : JVal}
    (hnd : (src.map Prod.fst).Nodup)
    (hs : getVal? src m = some (JVal.obj sfs))
    (hk : getVal? sfs "key" = some kv) :
    ∀ d v, getVal? d m = some v →
      getVal? (copyPass src d) m =
        some (JVal.obj (setField (entryFields v) "key" kv)) := by
  induction src with
  | nil => intro d v hd; simp [getVal?] at hs
  | cons mv tl ih =>
      intro d v hd
      obtain ⟨k, p⟩ := mv
      simp only [List.map_cons, List.nodup_cons] at hnd
      by_cases hkm : k = m
      · subst hkm
        simp only [getVal?, if_true, eq_self_iff_true, Option.some.injEq] at hs
        subst hs
        rw [copyPass_cons]
        rw [getVal?_copyPass_not_mem hnd.1]
        rw [copyStep_self hk hd]
        exact getVal?_setField_self _ _ _
      · simp only [getVal?, if_neg hkm] at hs
        rw [copyPass_cons]
        refine ih hnd.2 hs _ v ?_
        rw [getVal?_copyStep_ne _ _ hkm, hd]

theorem getVal?_copyPass_no_copy {src : Doc} {m : String}
    (hnd : (src.map Prod.fst).Nodup)
    (hno : copyableAt src m = false) :
    ∀ d : Doc, getVal? (copyPass src d) m = getVal? d m := by
  induction src with
  | nil => intro d; rfl
  | cons mv tl ih =>
      intro d
      obtain ⟨k, p⟩ := mv
      simp only [List.map_cons, List.nodup_cons] at hnd
      by_cases hkm : k = m
      · subst hkm
        simp only [copyableAt, getVal?, if_true, eq_self_iff_true] at hno
        rw [copyPass_cons, getVal?_copyPass_not_mem hnd.1,
          copyStep_eq_of_not_copyable _ _ hno]
      · simp only [copyableAt, getVal?, if_neg hkm] at hno
        rw [copyPass_cons, ih hnd.2 hno, getVal?_copyStep_ne _ _ hkm]

theorem copyPass_id_of_no_guard {src : Doc} : ∀ {d : Doc},
    (∀ mv ∈ src, isCopyable mv.2 = true → hasKey d mv.1 = false) →
    copyPass src d = d := by
  induction src with
  | nil => intro d h; rfl
  | cons mv tl ih =>
      intro d h
      obtain ⟨k, p⟩ := mv
      have hstep : copyStep d k p = d := by
        cases hc : isCopyable p with
        | false => exact copyStep_eq_of_not_copyable _ _ hc
        | true =>
            have hfalse := h (k, p) (List.mem_cons_self _ _) hc
            cases hdk : getVal? d k with
            | none => exact copyStep_eq_of_not_mem _ hdk
            | some w => simp [hasKey, hdk] at hfalse
      rw [copyPass_cons, hstep]
      exact ih (fun mv hmv => h mv (List.mem_cons_of_mem _ hmv))

/-- Field isolation for a single copy step: an entry that is a mapping
stays a mapping and keeps every field other than "key". -/
theorem getVal?_copyStep_obj {d : Doc} {m mo : String} {p : JVal} {fs : Doc}
    {f : String} (hf : f ≠ "key") (h : getVal? d m = some (JVal.obj fs)) :
    ∃ fs1, getVal? (copyStep d mo p) m = some (JVal.obj fs1) ∧
      getVal? fs1 f = getVal? fs f := by
  by_cases hmo : mo = m
  · subst hmo
    cases p with
    | obj sfs =>
        cases hk : getVal? sfs "key" with
        | none => exact ⟨fs, by simp [copyStep, hk, h], rfl⟩
        | some kv =>
            refine ⟨setField fs "key" kv, ?_, ?_⟩
            · rw [copyStep_self hk h]
              simpa [entryFields] using getVal?_setField_self d mo (JVal.obj (setField fs "key" kv))
            · exact getVal?_setField_ne _ _ (Ne.symm hf)
    | null => exact ⟨fs, h, rfl⟩
    | bool b => exact ⟨fs, h, rfl⟩
    | num n => exact ⟨fs, h, rfl⟩
    | str s => exact ⟨fs, h, rfl⟩
    | arr xs => exact ⟨fs, h, rfl⟩
  · exact ⟨fs, by rw [getVal?_copyStep_ne _ _ hmo, h], rfl⟩

theorem getVal?_copyPass_obj {src : Doc} {m f : String} (hf : f ≠ "key") :
    ∀ {d : Doc} {fs : Doc}, getVal? d m = some (JVal.obj fs) →
    ∃ fs1, getVal? (copyPass src d) m = some (JVal.obj fs1) ∧
      getVal? fs1 f = getVal? fs f := by
  induction src with
  | nil => intro d fs h; exact ⟨fs, h, rfl⟩
  | cons mv tl ih =>
      intro d fs h
      obtain ⟨fs1, h1, hpres⟩ := @getVal?_copyStep_obj _ _ mv.1 mv.2 _ _ hf h
      obtain ⟨fs2, h2, hpres2⟩ := ih h1
      exact ⟨fs2, by rw [copyPass_cons]; exact h2, hpres2.trans hpres⟩

/-- Field isolation through one copy step: fields other than "key" of any
module entry are untouched, whatever the step does. -/
theorem fieldValAt_copyStep (d : Doc) (mo : String) (p : JVal) (m f : String)
    (hf : f ≠ "key") :
    fieldValAt (copyStep d mo p) m f = fieldValAt d m f := by
  by_cases hmo : mo = m
  · subst hmo
    cases p with
    | obj sfs =>
        cases hk : getVal? sfs "key" with
        | none => simp [copyStep, hk]
        | some kv =>
            cases hd : getVal? d mo with
            | none => simp [copyStep, hk, hd]
            | some cur =>
                rw [copyStep_self hk hd]
                simp only [fieldValAt, getVal?_setField_self, hd]
                rw [getVal?_setField_ne _ _ (Ne.symm hf)]
                cases cur <;> rfl
    | null => rfl
    | bool b => rfl
    | num n => rfl
    | str t => rfl
    | arr xs => rfl
  · simp only [fieldValAt, getVal?_copyStep_ne _ _ hmo]

theorem fieldValAt_copyPass (src : Doc) (m f : String) (hf : f ≠ "key") :
    ∀ d : Doc, fieldValAt (copyPass src d) m f = fieldValAt d m f := by
  induction src with
  | nil => intro d; rfl
  | cons mv tl ih =>
      intro d
      rw [copyPass_cons, ih, fieldValAt_copyStep _ _ _ _ _ hf]

theorem fieldValAt_stripPass (dst : Doc) (m f : String) (hf : f ≠ "key") :
    fieldValAt (stripPass dst) m f = fieldValAt dst m f := by
  simp only [fieldValAt, getVal?_stripPass]
  cases getVal? dst m with
  | none => rfl
  | some w =>
      cases w <;> simp [stripKeyEntry, getVal?_popField_ne _ (Ne.symm hf)]

/-
Lemmas about the batch run model.
-/

/-- The shipped naming pattern appends the literal suffix to the stem. -/
theorem formatBase_default (b : String) :
    formatBase OUTPUT_NAME_PATTERN b = b ++ "_mybind.json" := by
  cases b with
  | mk data => rfl

theorem processTargets_ok (read : String → Option JVal) (s : Doc) (docs : String → Doc) :
    ∀ (ps gen : List String) (written : List (String × Doc)),
    (∀ p ∈ ps, read p = some (JVal.obj (docs p))) →
    processTargets read (JVal.obj s) ps gen written =
      RunOutcome.success (gen ++ ps.map outPath)
        (written ++ ps.map (fun p => (outPath p, apply_binds s (docs p)))) := by
  intro ps
  induction ps with
  | nil => intro gen written h; simp [processTargets]
  | cons p rest ih =>
      intro gen written h
      have hd := h p (List.mem_cons_self _ _)
      simp only [processTargets, load_json, hd, applyBindsDyn]
      rw [ih _ _ (fun q hq => h q (List.mem_cons_of_mem _ hq))]
      simp

theorem processTargets_halt (read : String → Option JVal) (s : Doc) (docs : String → Doc)
    (bad : String) (post : List String) (hbad : read bad = none) :
    ∀ (pre gen : List String) (written : List (String × Doc)),
    (∀ p ∈ pre, read p = some (JVal.obj (docs p))) →
    processTargets read (JVal.obj s) (pre ++ bad :: post) gen written =
      RunOutcome.loadError bad
        (written ++ pre.map (fun p => (outPath p, apply_binds s (docs p)))) := by
  intro pre
  induction pre with
  | nil =>
      intro gen written h
      simp [processTargets, load_json, hbad]
  | cons p rest ih =>
      intro gen written h
      have hd := h p (List.mem_cons_self _ _)
      simp only [List.cons_append, processTargets, load_json, hd, applyBindsDyn,
        List.append_eq]
      rw [ih _ _ (fun q hq => h q (List.mem_cons_of_mem _ hq))]
      simp

/-- A non-object root makes apply_binds raise before anything is saved. -/
theorem applyBindsDyn_none_of_not_obj (s : Doc) {v : JVal} (hv : isObj v = false) :
    applyBindsDyn (JVal.obj s) v = none := by
  cases v with
  | obj fs => simp [isObj] at hv
  | null => rfl
  | bool b => rfl
  | num n => rfl
  | str t => rfl
  | arr xs => rfl

/-
The claim theorems.
-/

/-- C1 (copy fidelity): for every module m present in both documents whose
source entry is a mapping containing a "key" field, the merged target
entry for m is a mapping whose "key" field equals the source "key" value,
whatever that value is (presence of the field, not its truthiness, gates
the copy). -/
theorem apply_binds_copy_fidelity (src dst : Doc) (m : String) (sfs : Doc) (kv : JVal)
    (hnd : (src.map Prod.fst).Nodup)
    (hs : getVal? src m = some (JVal.obj sfs))
    (hk : getVal? sfs "key" = some kv)
    (ht : hasKey dst m = true) :
    isObjAt (apply_binds src dst) m = true ∧
    keyValAt (apply_binds src dst) m = some kv := by
  cases hw : getVal? dst m with
  | none => simp [hasKey, hw] at ht
  | some w =>
      have hstrip : getVal? (stripPass dst) m = some (stripKeyEntry w) := by
        rw [getVal?_stripPass, hw]; rfl
      have hset := getVal?_copyPass_set hnd hs hk (stripPass dst) (stripKeyEntry w) hstrip
      constructor
      · simp [isObjAt, apply_binds, hset, isObj]
      · simp [keyValAt, apply_binds, hset, getVal?_setField_self]

/-- Witness for C1 at the documents of Scenario A: the "key" of move is
copied from the source. -/
theorem apply_binds_copy_fidelity_witness :
    isObjAt (apply_binds
        [("move", JVal.obj [("key", JVal.str "W")]), ("jump", JVal.obj [("key", JVal.str "SPACE")])]
        [("move", JVal.obj [("key", JVal.str "UP"), ("sens", JVal.num 1)]), ("chat", JVal.obj [("key", JVal.str "T")])])
      "move" = true ∧
    keyValAt (apply_binds
        [("move", JVal.obj [("key", JVal.str "W")]), ("jump", JVal.obj [("key", JVal.str "SPACE")])]
        [("move", JVal.obj [("key", JVal.str "UP"), ("sens", JVal.num 1)]), ("chat", JVal.obj [("key", JVal.str "T")])])
      "move" = some (JVal.str "W") :=
  apply_binds_copy_fidelity _ _ "move" _ _ (by decide) rfl rfl rfl

/-- C2 (strip result): for a module m of the target whose source
counterpart is absent, not a mapping, or lacks a "key" field, the merged
entry for m, whenever it is a mapping, has no "key" field; with an empty
source this holds for every module, so nothing is restored. -/
theorem apply_binds_strip_result (src dst : Doc) (m : String)
    (hnd : (src.map Prod.fst).Nodup)
    (hno : copyableAt src m = false)
    (ht : hasKey dst m = true)
    (hwf : entryNodupAt dst m = true) :
    noKeyAt (apply_binds src dst) m = true := by
  have hcp := getVal?_copyPass_no_copy hnd hno (stripPass dst)
  rw [apply_binds]
  cases hw : getVal? dst m with
  | none => simp [hasKey, hw] at ht
  | some w =>
      have hstrip : getVal? (stripPass dst) m = some (stripKeyEntry w) := by
        rw [getVal?_stripPass, hw]; rfl
      cases w with
      | obj fs =>
          have hnodup : (fs.map Prod.fst).Nodup := by
            have h := hwf
            simp only [entryNodupAt, hw] at h
            exact of_decide_eq_true h
          simp [noKeyAt, hcp, hstrip, stripKeyEntry,
            getVal?_popField_self "key" hnodup]
      | null => simp [noKeyAt, hcp, hstrip, stripKeyEntry]
      | bool b => simp [noKeyAt, hcp, hstrip, stripKeyEntry]
      | num n => simp [noKeyAt, hcp, hstrip, stripKeyEntry]
      | str t => simp [noKeyAt, hcp, hstrip, stripKeyEntry]
      | arr xs => simp [noKeyAt, hcp, hstrip, stripKeyEntry]

/-- Witness for C2 at the documents of Scenario B: an empty source leaves
move with its "key" removed. -/
theorem apply_binds_strip_result_witness :
    noKeyAt (apply_binds [] [("move", JVal.obj [("key", JVal.str "UP")])]) "move" = true :=
  apply_binds_strip_result [] [("move", JVal.obj [("key", JVal.str "UP")])] "move"
    (by decide) rfl rfl (by decide)

/-- C3 (module-set preservation): the merged document has exactly the
module names of the original target, in order: nothing is added (in
particular no module only in the source) and nothing is removed. -/
theorem apply_binds_module_set (src dst : Doc) :
    (apply_binds src dst).map Prod.fst = dst.map Prod.fst := by
  rw [apply_binds, keys_copyPass, keys_stripPass]

/-- C6 (field isolation): every field other than "key" of every target
module entry has the same value after the merge as before. -/
theorem apply_binds_field_isolation (src dst : Doc) (m f : String) (hf : f ≠ "key") :
    fieldValAt (apply_binds src dst) m f = fieldValAt dst m f := by
  rw [apply_binds, fieldValAt_copyPass src m f hf, fieldValAt_stripPass dst m f hf]

/-- Witness for C6 at the documents of Scenario A: the sens field of move
is untouched. -/
theorem apply_binds_field_isolation_witness :
    fieldValAt (apply_binds
        [("move", JVal.obj [("key", JVal.str "W")]), ("jump", JVal.obj [("key", JVal.str "SPACE")])]
        [("move", JVal.obj [("key", JVal.str "UP"), ("sens", JVal.num 1)]), ("chat", JVal.obj [("key", JVal.str "T")])])
      "move" "sens"
    = fieldValAt
        [("move", JVal.obj [("key", JVal.str "UP"), ("sens", JVal.num 1)]), ("chat", JVal.obj [("key", JVal.str "T")])]
        "move" "sens" :=
  apply_binds_field_isolation _ _ "move" "sens" (by decide)

/-- C9 (non-mapping target entry replacement): when the source entry for m
is a mapping with a "key" field and the target entry for m is not a
mapping, the merged entry for m is a mapping holding exactly the single
field "key" with the source value. -/
theorem apply_binds_nonmapping_replacement (src dst : Doc) (m : String) (sfs : Doc)
    (kv w : JVal)
    (hnd : (src.map Prod.fst).Nodup)
    (hs : getVal? src m = some (JVal.obj sfs))
    (hk : getVal? sfs "key" = some kv)
    (ht : getVal? dst m = some w)
    (hw : isObj w = false) :
    getVal? (apply_binds src dst) m = some (JVal.obj [("key", kv)]) := by
  have hstrip : getVal? (stripPass dst) m = some (stripKeyEntry w) := by
    rw [getVal?_stripPass, ht]; rfl
  have hset := getVal?_copyPass_set hnd hs hk (stripPass dst) (stripKeyEntry w) hstrip
  rw [apply_binds, hset]
  cases w with
  | obj fs => simp [isObj] at hw
  | null => rfl
  | bool b => rfl
  | num n => rfl
  | str t => rfl
  | arr xs => rfl

/-- Witness for C9: an opaque string entry is discarded and replaced by a
mapping holding only the copied "key" (here a null key value). -/
theorem apply_binds_nonmapping_replacement_witness :
    getVal? (apply_binds [("m", JVal.obj [("key", JVal.null)])] [("m", JVal.str "opaque")]) "m"
      = some (JVal.obj [("key", JVal.null)]) :=
  apply_binds_nonmapping_replacement _ _ "m" _ JVal.null (JVal.str "opaque")
    (by decide) rfl rfl rfl rfl

/-- C10 (source document unchanged): on the state pair (src_cfg, dst_cfg)
of two distinct document values, apply_binds leaves the source component
as it was; only the target component changes. -/
theorem apply_binds_source_unchanged (st : Doc × Doc) :
    (applyBindsPair st).1 = st.1 := rfl

/-- C8 counterexample: with source move bound to W and target move an
empty mapping, running copy before strip removes the copied key, while
the implemented strip-before-copy order keeps it: the two orders differ. -/
theorem strip_copy_order_counterexample :
    stripPass (copyPass [("move", JVal.obj [("key", JVal.str "W")])] [("move", JVal.obj [])])
      ≠ copyPass [("move", JVal.obj [("key", JVal.str "W")])] (stripPass [("move", JVal.obj [])]) := by
  intro h
  have h2 : ([("move", JVal.obj [])] : Doc)
      = [("move", JVal.obj [("key", JVal.str "W")])] := h
  simp at h2

/-- C8 amended: the two passes are not order-independent in general; they
agree exactly in the degenerate situation where no source module with a
"key"-bearing mapping entry is present in the target, in which case the
copy pass is a no-op and both orders reduce to the strip pass. -/
theorem strip_copy_commute_amended (src dst : Doc)
    (h : ∀ mv ∈ src, isCopyable mv.2 = true → hasKey dst mv.1 = false) :
    stripPass (copyPass src dst) = copyPass src (stripPass dst) := by
  have h1 : copyPass src dst = dst := copyPass_id_of_no_guard h
  have h2 : copyPass src (stripPass dst) = stripPass dst :=
    copyPass_id_of_no_guard (fun mv hmv hc => by
      rw [hasKey_stripPass]; exact h mv hmv hc)
  rw [h1, h2]

/-- Witness for the amended C8: the source binds only jump, the target
only holds move, so both orders agree. -/
theorem strip_copy_commute_amended_witness :
    stripPass (copyPass
        [("jump", JVal.obj [("key", JVal.str "SPACE")]), ("x", JVal.str "v")]
        [("move", JVal.obj [("key", JVal.str "UP")])])
      = copyPass
        [("jump", JVal.obj [("key", JVal.str "SPACE")]), ("x", JVal.str "v")]
        (stripPass [("move", JVal.obj [("key", JVal.str "UP")])]) :=
  strip_copy_commute_amended _ _ (by decide)

/-- C4 (batch output resolution in sibling mode): when every target of a
non-empty batch loads as an object (and the source does too), the run
succeeds, the generated paths are in one-to-one order-preserving
correspondence with the targets, and the path for each target is its own
directory joined with the naming pattern applied to its filename stem;
with the shipped pattern the output filename is the stem followed by the
literal suffix. -/
theorem runMain_sibling_outputs (read : String → Option JVal) (srcPath : String)
    (dstPaths : List String) (s : Doc) (docs : String → Doc)
    (_hne : dstPaths ≠ [])
    (hs : read srcPath = some (JVal.obj s))
    (hall : ∀ p ∈ dstPaths, read p = some (JVal.obj (docs p))) :
    runMain read srcPath dstPaths =
      RunOutcome.success (dstPaths.map outPath)
        (dstPaths.map (fun p => (outPath p, apply_binds s (docs p)))) ∧
    dstPaths.map outPath =
      dstPaths.map (fun p =>
        joinPath (dirname p) (splitextStem (basename p) ++ "_mybind.json")) := by
  constructor
  · simp only [runMain, load_json, hs]
    rw [processTargets_ok read s docs dstPaths [] [] hall]
    simp
  · have he : outPath = fun p =>
        joinPath (dirname p) (splitextStem (basename p) ++ "_mybind.json") := by
      funext p
      rw [outPath, formatBase_default]
    rw [he]

/-- Witness for C4: two sibling targets in cfg produce outputs beside each
of them, in order. -/
theorem runMain_sibling_outputs_witness :
    runMain readBatch "cfg/src.json" ["cfg/a.json", "cfg/b.json"] =
      RunOutcome.success (["cfg/a.json", "cfg/b.json"].map outPath)
        (["cfg/a.json", "cfg/b.json"].map (fun p =>
          (outPath p, apply_binds [("move", JVal.obj [("key", JVal.str "W")])] (docsBatch p)))) ∧
    ["cfg/a.json", "cfg/b.json"].map outPath =
      ["cfg/a.json", "cfg/b.json"].map (fun p =>
        joinPath (dirname p) (splitextStem (basename p) ++ "_mybind.json")) :=
  runMain_sibling_outputs readBatch "cfg/src.json" _ _ docsBatch
    (by simp) rfl
    (by
      intro p hp
      cases hp with
      | head => rfl
      | tail _ hp2 =>
          cases hp2 with
          | head => rfl
          | tail _ hp3 => cases hp3)

/-- C5 (halt on load failure): if a target fails to load, the run ends
with a load error naming that path; the targets before it were each
merged and written (their outputs stay in the write log), and nothing is
written for the failing target or for any later target — the later paths
are never consulted at all, since the outcome holds with no assumption on
their content. -/
theorem runMain_halt_on_load_failure (read : String → Option JVal) (srcPath : String)
    (pre post : List String) (bad : String) (s : Doc) (docs : String → Doc)
    (hs : read srcPath = some (JVal.obj s))
    (hpre : ∀ p ∈ pre, read p = some (JVal.obj (docs p)))
    (hbad : read bad = none) :
    runMain read srcPath (pre ++ bad :: post) =
      RunOutcome.loadError bad
        (pre.map (fun p => (outPath p, apply_binds s (docs p)))) := by
  simp only [runMain, load_json, hs]
  rw [processTargets_halt read s docs bad post hbad pre [] [] hpre]
  simp

/-- Witness for C5: the second of three targets is unreadable; only the
first output is written and the run stops with a load error on the second
path. -/
theorem runMain_halt_on_load_failure_witness :
    runMain readHalt "d/src.json" (["d/t1.json"] ++ "d/t2.json" :: ["d/t3.json"]) =
      RunOutcome.loadError "d/t2.json"
        (["d/t1.json"].map (fun p =>
          (outPath p, apply_binds [("jump", JVal.obj [("key", JVal.str "SPACE")])] (docsHalt p)))) :=
  runMain_halt_on_load_failure readHalt "d/src.json" ["d/t1.json"] ["d/t3.json"]
    "d/t2.json" _ docsHalt rfl
    (by
      intro p hp
      cases hp with
      | head => rfl
      | tail _ hp2 => cases hp2)
    rfl

/-- C7 counterexample: a file that parses to the JSON array [] is loaded
successfully by load_json even though its root is not an object, so
loading a non-object root does not fail with a load error. -/
theorem load_json_non_object_counterexample :
    load_json (fun _ => some (JVal.arr [])) "cfg/target.json"
      = LoadResult.ok (JVal.arr []) ∧ isObj (JVal.arr []) = false :=
  ⟨rfl, rfl⟩

/-- C7 amended: load_json fails only when the file cannot be read or
parsed as JSON; a document with a non-object root (array, string, number)
loads successfully, and such a root instead makes the merge raise an
unhandled type error, ending the run with nothing written for that
target. -/
theorem load_json_accepts_any_root (read : String → Option JVal)
    (srcPath dstPath : String) (s : Doc) (v : JVal)
    (hs : read srcPath = some (JVal.obj s))
    (hv : read dstPath = some v) (hobj : isObj v = false) :
    load_json read dstPath = LoadResult.ok v ∧
    runMain read srcPath [dstPath] = RunOutcome.attrError [] := by
  constructor
  · simp [load_json, hv]
  · simp only [runMain, load_json, hs, hv, processTargets,
      applyBindsDyn_none_of_not_obj s hobj]

/-- Witness for the amended C7: a target whose file parses to a JSON
string loads fine and the run then dies with the unhandled type error. -/
theorem load_json_accepts_any_root_witness :
    load_json readStrRoot "d/t.json" = LoadResult.ok (JVal.str "nope") ∧
    runMain readStrRoot "d/src.json" ["d/t.json"] = RunOutcome.attrError [] :=
  load_json_accepts_any_root readStrRoot "d/src.json" "d/t.json" []
    (JVal.str "nope") rfl rfl rfl

end Mybind
